import Mathlib

/-!
Shallow embedding of the playback-session / queue-orchestration core of the
browser media player (the main App component together with
`src/utils/lyrics.ts`), and proofs about the behaviour its specification
claims.

Number-valued quantities of the source (playback positions, durations,
lyric timestamps) are modelled as rationals; array indices follow the
JavaScript convention of the source, where `findIndex` yields `-1` and the
active index ref may be `-1`, so indices coming from refs are integers.
`Math.random()`-based selections are modelled by an explicit `pick`
argument: the source computes `Math.floor(Math.random() * len)`, a uniform
draw from `[0, len)`, which is modelled as `pick % len` for an arbitrary
natural `pick`.
-/

/-- Identity key of a track; the source builds it as a string. -/
abbrev TrackKey := String

/-- `const DEFAULT_SOURCE: SourceValue = 'netease'` -/
def DEFAULT_SOURCE : String := "netease"

/-- `getTrackKey` from the App component:
`const source = track.source || DEFAULT_SOURCE; return s!\x7b...\x7d` builds
`id ++ "-" ++ source`, substituting the default when `source` is falsy
(the empty string). -/
def getTrackKey (id source : String) : TrackKey :=
  id ++ "-" ++ (if source = "" then DEFAULT_SOURCE else source)

/-- `ParsedLyricLine` of `utils/lyrics.ts`. -/
structure ParsedLyricLine where
  time : ℚ
  text : String
deriving Repr, DecidableEq

/-- `LyricLine` of `utils/lyrics.ts` (`extends ParsedLyricLine`,
`translation?: string`). -/
structure LyricLine where
  time : ℚ
  text : String
  translation : Option String
deriving Repr, DecidableEq

/-- `PlaylistEntry` of the App component. -/
structure PlaylistEntry where
  id : String
  title : String
  artists : String
  album : String
  source : String
  artworkUrl : Option String := none
  audioUrl : Option String := none
  lyrics : Option (List LyricLine) := none
  duration : Option ℚ := none
  lyricId : Option String := none
  picId : Option String := none
deriving Repr, DecidableEq

/-- The identity key of a playlist entry. -/
def PlaylistEntry.key (e : PlaylistEntry) : TrackKey := getTrackKey e.id e.source

/-- `TrackDetails` of the App component (`extends PlaylistEntry` with
mandatory `audioUrl` and `lyrics`). -/
structure TrackDetails where
  id : String
  title : String
  artists : String
  album : String
  source : String
  artworkUrl : Option String := none
  audioUrl : String
  lyrics : List LyricLine
  duration : Option ℚ := none
  lyricId : Option String := none
  picId : Option String := none
deriving Repr, DecidableEq

/-- The identity key of a hydrated track. -/
def TrackDetails.key (t : TrackDetails) : TrackKey := getTrackKey t.id t.source

/-- In TypeScript a `TrackDetails` is assignable to `PlaylistEntry`
(structural subtyping); this is the corresponding coercion. -/
def TrackDetails.toEntry (t : TrackDetails) : PlaylistEntry :=
  { id := t.id, title := t.title, artists := t.artists, album := t.album,
    source := t.source, artworkUrl := t.artworkUrl, audioUrl := some t.audioUrl,
    lyrics := some t.lyrics, duration := t.duration, lyricId := t.lyricId,
    picId := t.picId }

/-- Repeat modes of the queue policy (`'none' | 'one' | 'all'`). -/
inductive RepeatMode where
  | none
  | one
  | all
deriving Repr, DecidableEq

/-- JavaScript `Array.prototype.findIndex`: index of the first element
satisfying the predicate, `-1` when there is none. -/
def jsFindIndex {α : Type} (p : α → Bool) (l : List α) : ℤ :=
  match l.findIdx? p with
  | some i => (i : ℤ)
  | Option.none => -1

/-- Result of a navigation handler: the entry (with its index) handed to
`playTrack`, if any, together with the shuffle-history stack after the
handler ran. -/
structure AdvanceResult where
  target : Option (PlaylistEntry × ℕ)
  history : List TrackKey
deriving Repr, DecidableEq

/-- `handleAutoAdvance` of the App component: the decision taken when the
audio element reports `ended`.  `list` is `playlistRef.current`,
`currentIndex` is `activeIndexRef.current`, `currentTrack` is
`currentTrackRef.current` (coerced), `history` is
`shuffleHistoryRef.current`, and `pick` models the `Math.random()` draw. -/
def handleAutoAdvance (list : List PlaylistEntry) (currentIndex : ℤ)
    (repeatState : RepeatMode) (shuffleOn : Bool)
    (currentTrack : Option PlaylistEntry) (history : List TrackKey)
    (pick : ℕ) : AdvanceResult :=
  if list.isEmpty then ⟨none, history⟩
  else if repeatState = RepeatMode.one then
    let repeatIndex : ℤ :=
      if currentIndex < 0 then
        match currentTrack with
        | some ct => jsFindIndex (fun item => item.key == ct.key) list
        | none => currentIndex
      else currentIndex
    let repeatTrack : Option PlaylistEntry :=
      (if 0 ≤ repeatIndex ∧ repeatIndex < (list.length : ℤ)
        then list.get? repeatIndex.toNat else none).orElse (fun _ => currentTrack)
    match repeatTrack with
    | some t => ⟨some (t, if 0 ≤ repeatIndex then repeatIndex.toNat else 0), history⟩
    | none => ⟨none, history⟩
  else
    let shuffled : Option ℤ × List TrackKey :=
      if shuffleOn then
        let availableIndexes :=
          (List.range list.length).filter (fun (idx : ℕ) => (idx : ℤ) ≠ currentIndex)
        let targetIndex : Option ℤ :=
          if availableIndexes.length ≠ 0 then
            some (((availableIndexes.get? (pick % availableIndexes.length)).getD 0 : ℕ) : ℤ)
          else if repeatState = RepeatMode.all ∧ 0 ≤ currentIndex then
            some currentIndex
          else none
        let history1 :=
          match targetIndex with
          | some t =>
            if currentIndex ≠ -1 ∧ 0 ≤ t ∧ t < (list.length : ℤ) ∧ t ≠ currentIndex then
              match (if currentIndex < 0 then none else list.get? currentIndex.toNat) with
              | some ct => history ++ [ct.key]
              | none => history
            else history
          | none => history
        (targetIndex, history1)
      else
        let nextIndex := currentIndex + 1
        if nextIndex < (list.length : ℤ) then ((some nextIndex : Option ℤ), history)
        else if repeatState = RepeatMode.all then ((some 0 : Option ℤ), history)
        else (none, history)
    match shuffled.1 with
    | none => ⟨none, shuffled.2⟩
    | some t =>
      if 0 ≤ t ∧ t < (list.length : ℤ) then
        match list.get? t.toNat with
        | some entry => ⟨some (entry, t.toNat), shuffled.2⟩
        | none => ⟨none, shuffled.2⟩
      else ⟨none, shuffled.2⟩

/-- `handleNext` of the App component: user-initiated skip to the next
track.  Note that, unlike `handleAutoAdvance`, this handler never reads
`repeatModeRef`. -/
def handleNext (list : List PlaylistEntry) (currentIndex : ℤ)
    (shuffleOn : Bool) (currentTrack : Option PlaylistEntry)
    (history : List TrackKey) (pick : ℕ) : AdvanceResult :=
  if list.isEmpty then ⟨none, history⟩
  else if currentTrack.isNone then ⟨none, history⟩
  else if shuffleOn then
    let history1 :=
      if currentIndex ≠ -1 then
        match (if currentIndex < 0 then none else list.get? currentIndex.toNat) with
        | some ct => history ++ [ct.key]
        | none => history
      else history
    if list.length = 1 then
      match list.get? 0 with
      | some t => ⟨some (t, 0), history1⟩
      | none => ⟨none, history1⟩
    else
      let availableIndexes :=
        (List.range list.length).filter (fun (idx : ℕ) => (idx : ℤ) ≠ currentIndex)
      let nextIndex : ℤ :=
        if availableIndexes.length ≠ 0 then
          (((availableIndexes.get? (pick % availableIndexes.length)).getD 0 : ℕ) : ℤ)
        else if 0 ≤ currentIndex then currentIndex
        else 0
      match (if nextIndex < 0 then none else list.get? nextIndex.toNat) with
      | some t => ⟨some (t, nextIndex.toNat), history1⟩
      | none => ⟨none, history1⟩
  else
    let nextIndex := currentIndex + 1
    if nextIndex < (list.length : ℤ) then
      match (if nextIndex < 0 then none else list.get? nextIndex.toNat) with
      | some t => ⟨some (t, nextIndex.toNat), history⟩
      | none => ⟨none, history⟩
    else if 1 < list.length then
      match list.get? 0 with
      | some t => ⟨some (t, 0), history⟩
      | none => ⟨none, history⟩
    else ⟨none, history⟩

/-- The `while (history.length)` pop loop of `handlePrevious`, acting on
the reversed stack (JavaScript `pop` takes the last array element, here
the list head).  Yields the entry to play, if one was found, and the
remaining stack (reversed back by the caller). -/
def popHistoryLoop (list : List PlaylistEntry) :
    List TrackKey → Option (PlaylistEntry × ℕ) × List TrackKey
  | [] => (none, [])
  | k :: rest =>
    if k = "" then (none, rest.reverse)
    else
      match list.findIdx? (fun item => item.key == k) with
      | some i =>
        match list.get? i with
        | some t => (some (t, i), rest.reverse)
        | none => popHistoryLoop list rest
      | none => popHistoryLoop list rest

/-- `handlePrevious` of the App component. -/
def handlePrevious (list : List PlaylistEntry) (currentIndex : ℤ)
    (shuffleOn : Bool) (currentTrack : Option PlaylistEntry)
    (history : List TrackKey) : Option (PlaylistEntry × ℕ) × List TrackKey :=
  if list.isEmpty then (none, history)
  else if currentTrack.isNone then (none, history)
  else
    let popped :=
      if shuffleOn then popHistoryLoop list history.reverse
      else (none, history)
    match popped.1 with
    | some t => (some t, popped.2)
    | none =>
      let nextIndex : ℕ :=
        if 0 < currentIndex then (currentIndex - 1).toNat else list.length - 1
      match list.get? nextIndex with
      | some t => (some (t, nextIndex), popped.2)
      | none => (none, popped.2)

/-- `skipAfterInvalidTrack` of the App component: the candidate the session
recurses into (via `playTrack`) after the track at `failedIndex` resolved
to an unsupported stream; `none` means the session stops
(`setIsPlaying(false)`). -/
def skipAfterInvalidTrack (list : List PlaylistEntry) (failedIndex : ℕ)
    (shuffleOn : Bool) (repeatState : RepeatMode) (pick : ℕ) :
    Option (PlaylistEntry × ℕ) :=
  if list.isEmpty then none
  else
    let nextIndex : Option ℤ :=
      if shuffleOn ∧ 1 < list.length then
        let options := (List.range list.length).filter (fun idx => idx ≠ failedIndex)
        if options.length ≠ 0 then
          some (((options.get? (pick % options.length)).getD 0 : ℕ) : ℤ)
        else none
      else if failedIndex + 1 < list.length then some ((failedIndex : ℤ) + 1)
      else if repeatState = RepeatMode.all ∧ 1 < list.length then some 0
      else none
    match nextIndex with
    | none => none
    | some n =>
      if n = (failedIndex : ℤ) ∨ n < 0 ∨ (list.length : ℤ) ≤ n then none
      else (list.get? n.toNat).map (fun t => (t, n.toNat))

/-- The `setPlaylist` updater inside `handleSearchSelect`: inserts the
hydrated `details` into `prev`, de-duplicating by identity key, anchored
just after `activeIndex` (the value of `activeIndexRef.current`).  Returns
the new list together with the `targetIndex` the handler then plays. -/
def insertTrack (prev : List PlaylistEntry) (activeIndex : ℤ)
    (details : PlaylistEntry) : List PlaylistEntry × ℕ :=
  let targetKey := details.key
  let defaultInsertIndex : ℕ :=
    if 0 ≤ activeIndex then activeIndex.toNat + 1 else prev.length
  let insertIndex0 : ℕ := min defaultInsertIndex prev.length
  match prev.findIdx? (fun item => item.key == targetKey) with
  | some existingIndex =>
    let nextList := ((prev.set existingIndex details).eraseIdx existingIndex)
    let insertIndex1 : ℕ :=
      if existingIndex < insertIndex0 then insertIndex0 - 1 else insertIndex0
    let insertIndex2 : ℕ := min insertIndex1 nextList.length
    (nextList.insertIdx insertIndex2 details, insertIndex2)
  | none =>
    (prev.insertIdx insertIndex0 details, insertIndex0)

/-- The duration-sync effect of the App component (it fires whenever the
transport-reported `duration` state changes): when a current track is
stored and the reported duration is a finite positive number different
from the stored one, it refreshes the current-track record and every
playlist entry with the same identity key.  `none` models the effect
returning without touching anything.  (A rational is always finite, so the
`Number.isFinite` guard reduces to positivity.) -/
def durationSync (storedTrack : Option TrackDetails)
    (playlist : List PlaylistEntry) (duration : ℚ) :
    Option (TrackDetails × List PlaylistEntry) :=
  match storedTrack with
  | none => none
  | some stored =>
    if duration ≤ 0 then none
    else if stored.duration = some duration then none
    else
      let updatedTrack : TrackDetails := { stored with duration := some duration }
      let updatedKey := updatedTrack.key
      let nextPlaylist := playlist.map (fun track =>
        if track.key == updatedKey then { track with duration := some duration }
        else track)
      some (updatedTrack, nextPlaylist)

/-! ## Lyric parsing and merging (`src/utils/lyrics.ts`) -/

/-- The character class matched by `\d` in the timestamp regular
expression. -/
def digitP (c : Char) : Bool := '0' ≤ c ∧ c ≤ '9'

/-- The whitespace removed by JavaScript `String.prototype.trim`
(the ASCII portion; lyric text only carries these). -/
def isJsWhitespace (c : Char) : Bool :=
  c = ' ' ∨ c = '\t' ∨ c = '\n' ∨ c = '\r' ∨ c = '\x0b' ∨ c = '\x0c'

/-- `raw.trim()` on a character list. -/
def jsTrim (s : List Char) : List Char :=
  ((s.dropWhile isJsWhitespace).reverse.dropWhile isJsWhitespace).reverse

/-- `lrc.split(/\r?\n/)`: cut at each `"\r\n"` or `"\n"`. `acc` holds the
current segment reversed. -/
def splitLinesAux : List Char → List Char → List (List Char)
  | [], acc => [acc.reverse]
  | '\r' :: '\n' :: rest, acc => acc.reverse :: splitLinesAux rest []
  | '\n' :: rest, acc => acc.reverse :: splitLinesAux rest []
  | c :: rest, acc => splitLinesAux rest (c :: acc)

/-- The capture groups of one match of
`/\[(\d{1,2}):(\d{1,2})(?:\.(\d{1,3}))?\]/`. -/
structure TsGroups where
  minutes : List Char
  seconds : List Char
  frac : Option (List Char)
deriving Repr, DecidableEq

/-- `]` closing the timestamp. -/
def matchClose (cs : List Char) : Option (List Char) :=
  match cs with
  | ']' :: rest => some rest
  | _ => none

/-- The three-digit alternative of the fraction group `\.(\d{1,3})`,
followed by `]`. -/
def fracThree (cs : List Char) : Option (Option (List Char) × List Char) :=
  match cs with
  | '.' :: d1 :: d2 :: d3 :: r =>
    if digitP d1 && digitP d2 && digitP d3 then
      (matchClose r).map (fun rr => (some [d1, d2, d3], rr))
    else none
  | _ => none

/-- The two-digit alternative of the fraction group, followed by `]`. -/
def fracTwo (cs : List Char) : Option (Option (List Char) × List Char) :=
  match cs with
  | '.' :: d1 :: d2 :: r =>
    if digitP d1 && digitP d2 then
      (matchClose r).map (fun rr => (some [d1, d2], rr))
    else none
  | _ => none

/-- The one-digit alternative of the fraction group, followed by `]`. -/
def fracOne (cs : List Char) : Option (Option (List Char) × List Char) :=
  match cs with
  | '.' :: d1 :: r =>
    if digitP d1 then
      (matchClose r).map (fun rr => (some [d1], rr))
    else none
  | _ => none

/-- `(?:\.(\d{1,3}))?\]` with the regex backtracking order: a greedy
fraction of three, two then one digit, then the empty alternative. -/
def matchFracThenClose (cs : List Char) : Option (Option (List Char) × List Char) :=
  (fracThree cs).orElse (fun _ =>
    (fracTwo cs).orElse (fun _ =>
      (fracOne cs).orElse (fun _ =>
        (matchClose cs).map (fun rr => ((none : Option (List Char)), rr)))))

/-- Two-digit seconds followed by the fraction group and `]`. -/
def secondsTwo (cs : List Char) : Option ((List Char × Option (List Char)) × List Char) :=
  match cs with
  | d1 :: d2 :: r =>
    if digitP d1 && digitP d2 then
      (matchFracThenClose r).map
        (fun (p : Option (List Char) × List Char) => (([d1, d2], p.1), p.2))
    else none
  | _ => none

/-- One-digit seconds followed by the fraction group and `]`. -/
def secondsOne (cs : List Char) : Option ((List Char × Option (List Char)) × List Char) :=
  match cs with
  | d1 :: r =>
    if digitP d1 then
      (matchFracThenClose r).map
        (fun (p : Option (List Char) × List Char) => (([d1], p.1), p.2))
    else none
  | _ => none

/-- `(\d{1,2})(?:\.(\d{1,3}))?\]`: greedy two-digit seconds first, then
one digit. -/
def matchSecondsThen (cs : List Char) : Option ((List Char × Option (List Char)) × List Char) :=
  (secondsTwo cs).orElse (fun _ => secondsOne cs)

/-- `:(\d{1,2})…` after the minutes. -/
def matchColonSeconds (cs : List Char) : Option ((List Char × Option (List Char)) × List Char) :=
  match cs with
  | ':' :: r => matchSecondsThen r
  | _ => none

/-- Two-digit minutes followed by the rest of the timestamp pattern. -/
def minutesTwo (cs : List Char) : Option (TsGroups × List Char) :=
  match cs with
  | d1 :: d2 :: r =>
    if digitP d1 && digitP d2 then
      (matchColonSeconds r).map
        (fun (p : (List Char × Option (List Char)) × List Char) =>
          (⟨[d1, d2], p.1.1, p.1.2⟩, p.2))
    else none
  | _ => none

/-- One-digit minutes followed by the rest of the timestamp pattern. -/
def minutesOne (cs : List Char) : Option (TsGroups × List Char) :=
  match cs with
  | d1 :: r =>
    if digitP d1 then
      (matchColonSeconds r).map
        (fun (p : (List Char × Option (List Char)) × List Char) =>
          (⟨[d1], p.1.1, p.1.2⟩, p.2))
    else none
  | _ => none

/-- One attempt of `/\[(\d{1,2}):(\d{1,2})(?:\.(\d{1,3}))?\]/` anchored at
the head of `cs`; on success yields the groups and the characters after
the match. -/
def tryTimestampAt (cs : List Char) : Option (TsGroups × List Char) :=
  match cs with
  | '[' :: rest => (minutesTwo rest).orElse (fun _ => minutesOne rest)
  | _ => none

/-- Combined result of `line.matchAll(TIMESTAMP_REGEX)` and
`line.replace(TIMESTAMP_REGEX, '')`: both walk the same leftmost,
non-overlapping matches. -/
structure LineScan where
  stamps : List TsGroups
  residual : List Char
deriving Repr, DecidableEq

/-- Scanner for `LineScan`; every successful match consumes at least one
character, so `fuel = cs.length` never runs out. -/
def scanLineAux (fuel : ℕ) (cs : List Char) : LineScan :=
  match fuel with
  | 0 => ⟨[], cs⟩
  | fuel + 1 =>
    match tryTimestampAt cs with
    | some (g, rest) =>
      let r := scanLineAux fuel rest
      ⟨g :: r.stamps, r.residual⟩
    | none =>
      match cs with
      | [] => ⟨[], []⟩
      | c :: rest =>
        let r := scanLineAux fuel rest
        ⟨r.stamps, c :: r.residual⟩

/-- Scan a whole line for timestamp matches and the match-free residual. -/
def scanLine (cs : List Char) : LineScan := scanLineAux cs.length cs

/-- `Number` on a non-empty digit string. -/
def digitsToNat (ds : List Char) : ℕ :=
  ds.foldl (fun n c => 10 * n + (c.toNat - '0'.toNat)) 0

/-- `match[3].padEnd(3, '0')`. -/
def padEndZeros (ds : List Char) : List Char :=
  ds ++ List.replicate (3 - ds.length) '0'

/-- `toSeconds` of `utils/lyrics.ts`. -/
def toSeconds (minutes seconds milliseconds : ℚ) : ℚ :=
  minutes * 60 + seconds + milliseconds / 1000

/-- Insertion step of the stable ascending sort: the new element goes in
front of the first strictly later line, after every earlier-or-equal
one. -/
def insertByTime (x : ParsedLyricLine) : List ParsedLyricLine → List ParsedLyricLine
  | [] => [x]
  | y :: ys => if y.time < x.time then y :: insertByTime x ys else x :: y :: ys

/-- `result.sort((a, b) => a.time - b.time)`: ECMAScript `Array.sort` is
stable, so any stable ascending sort is a faithful model; this insertion
sort is stable. -/
def sortByTime (l : List ParsedLyricLine) : List ParsedLyricLine :=
  l.foldr insertByTime []

/-- `parseLrc` of `utils/lyrics.ts`.  `if (!lrc) return []` treats both a
missing and an empty string as absent. -/
def parseLrc (lrc : Option String) : List ParsedLyricLine :=
  match lrc with
  | none => []
  | some s =>
    if s = "" then []
    else
      let lines := ((splitLinesAux s.data []).map jsTrim).filter (fun l => l ≠ [])
      let result := lines.foldl (fun acc line =>
        let scan := scanLine line
        if scan.stamps.isEmpty then acc
        else
          let text := jsTrim scan.residual
          if text = [] then acc
          else acc ++ scan.stamps.map (fun m =>
            let minutes := digitsToNat m.minutes
            let seconds := digitsToNat m.seconds
            let milliseconds : ℕ :=
              match m.frac with
              | some f => digitsToNat (padEndZeros f)
              | none => 0
            ⟨toSeconds (minutes : ℚ) (seconds : ℚ) (milliseconds : ℚ),
              String.mk text⟩)) []
      sortByTime result

/-- `Math.round(t * 100)`: round half away from zero toward positive
infinity, the JavaScript rule. -/
def roundHundredths (t : ℚ) : ℤ := ⌊t * 100 + 1 / 2⌋

/-- One iteration of the `translationMap` construction loop of
`mergeLyrics`: `if (!translationMap.has(key)) translationMap.set(key,
line.text)`, on an insertion-ordered association list. -/
def translationStep (m : List (ℤ × String)) (line : ParsedLyricLine) :
    List (ℤ × String) :=
  let key := roundHundredths line.time
  if (m.find? (fun p => p.1 == key)).isSome then m
  else m ++ [(key, line.text)]

/-- The `translationMap` construction of `mergeLyrics`: a `Map` keyed by
the rounded timestamp, first writer wins, modelled as an insertion-ordered
association list. -/
def buildTranslationMap (lines : List ParsedLyricLine) : List (ℤ × String) :=
  lines.foldl translationStep []

/-- `Map.prototype.get` on the association list. -/
def mapGet (m : List (ℤ × String)) (k : ℤ) : Option String :=
  (m.find? (fun p => p.1 == k)).map (fun p => p.2)

/-- `mergeLyrics` of `utils/lyrics.ts`. -/
def mergeLyrics (original translated : Option String) : List LyricLine :=
  let base := parseLrc original
  let translatedLines := parseLrc translated
  if translatedLines.isEmpty then
    base.map (fun l => ⟨l.time, l.text, none⟩)
  else
    let translationMap := buildTranslationMap translatedLines
    base.map (fun line =>
      ⟨line.time, line.text, mapGet translationMap (roundHundredths line.time)⟩)

/-! ## Lyric cue tracking (`handleTimeUpdate` in the App component) -/

/-- The active-lyric computation of `handleTimeUpdate`:
`const current = audio.currentTime + 0.25`,
`nextIndex = lyrics.findIndex(line => current < line.time)` with `-1`
normalised to the list length, then `Math.max(0, nextIndex - 1)`. -/
def computeLyricIndex (lyrics : List LyricLine) (currentTime : ℚ) : ℤ :=
  let current := currentTime + 1 / 4
  let nextIndex : ℕ := lyrics.findIdx (fun line => current < line.time)
  max 0 ((nextIndex : ℤ) - 1)

/-! ## The quality-switch effect (the `audioQuality` effect of the App
component) -/

/-- Environment of one run of `updateQuality`: the outcomes of its
asynchronous collaborators, in the order the code consults them. -/
structure QualityEnv where
  /-- the stream-URL fetch succeeds (`fetchJson` does not throw) -/
  fetchOk : Bool
  /-- the effect was cleaned up (`controller.abort()`) before the fetched
  response was handled -/
  abortedAfterFetch : Bool
  /-- `currentTrackRef.current` at the moment the response is handled -/
  latestTrack : Option TrackDetails
  /-- `audioRef.current` is non-null -/
  audioPresent : Bool
  /-- `!audio.paused` when the swap starts -/
  wasPlaying : Bool
  /-- `audio.currentTime` when the swap starts -/
  previousTime : ℚ
  /-- the new source reaches `loadeddata` (`true`) rather than `error` -/
  loadOk : Bool
  /-- the effect was cleaned up before `loadeddata`/`error` fired -/
  abortedBeforeLoaded : Bool
  /-- `activeAudio.duration` once loaded; `0` models a falsy duration -/
  newDuration : ℚ
deriving Repr, DecidableEq

/-- Observable outcome of one run of `updateQuality`. -/
inductive QualityOutcome where
  /-- stale or aborted result: discarded, no transport mutation -/
  | discarded
  /-- fetch or load failure: an error is surfaced, switch abandoned -/
  | errorSurfaced
  /-- track record updated but no audio element to swap -/
  | noAudio
  /-- the swap completed: playback position restored to `position`, and
  `play()` was invoked again iff `playInvoked` -/
  | resumed (position : ℚ) (playInvoked : Bool)
deriving Repr, DecidableEq

/-- `updateQuality` of the `audioQuality` effect: `current` is the track
captured when the effect started (`currentTrackRef.current`), whose key is
`currentKey`.  A rational `previousTime` is always finite, so the
`Number.isFinite(previousTime)` test holds; `activeAudio.duration ||
previousTime` falls back to `previousTime` on a falsy (zero) duration. -/
def updateQuality (current : TrackDetails) (env : QualityEnv) : QualityOutcome :=
  if env.fetchOk = false then
    if env.abortedAfterFetch then QualityOutcome.discarded
    else QualityOutcome.errorSurfaced
  else if env.abortedAfterFetch then QualityOutcome.discarded
  else
    match env.latestTrack with
    | none => QualityOutcome.discarded
    | some latest =>
      if latest.key ≠ current.key then QualityOutcome.discarded
      else if env.audioPresent = false then QualityOutcome.noAudio
      else if env.loadOk = false then
        if env.abortedBeforeLoaded then QualityOutcome.discarded
        else QualityOutcome.errorSurfaced
      else if env.abortedBeforeLoaded then QualityOutcome.discarded
      else
        let targetTime :=
          min env.previousTime
            (if env.newDuration = 0 then env.previousTime else env.newDuration)
        let position := if 0 < targetTime then targetTime else 0
        QualityOutcome.resumed position env.wasPlaying

/-! ## Interleaving model of `playTrack` (claim C1)

`playTrack(entry, index)` runs a synchronous prefix, then awaits
`buildTrackDetails(entry)`, then applies the hydration result with no
staleness check whatsoever: there is no generation token in the source,
and the continuation never compares the hydrated track against the track
selected most recently.  The model splits `playTrack` at the `await` into
two events and replays an arbitrary interleaving. -/

/-- The slice of session state touched by `playTrack` and
`activateTrack`. -/
structure SessionState where
  playlist : List PlaylistEntry
  /-- `currentTrackId` state (`setCurrentTrackId` at the top of
  `playTrack`) -/
  currentTrackId : Option TrackKey
  /-- `activeIndexRef.current` -/
  activeIndex : ℤ
  /-- `currentTrackRef.current` / `currentTrack` state -/
  currentTrack : Option TrackDetails
  /-- the `src` of the single audio element created by `activateTrack` -/
  audioSrc : Option String
  isPlaying : Bool
deriving Repr, DecidableEq

/-- One schedulable step of `playTrack` on the event loop. -/
inductive SessionEvent where
  /-- the synchronous prefix of `playTrack(entry, index)` for a track that
  still needs hydration: `setCurrentTrackId(getTrackKey(entry))` and
  `activeIndexRef.current = index` run before the `await` -/
  | selectStart (entry : PlaylistEntry) (index : ℕ)
  /-- the continuation of that `playTrack` call once
  `buildTrackDetails` resolves: the playlist refresh and
  `activateTrack(details, shouldAutoplay)` (teardown of the previous audio
  element, a new element for `details.audioUrl`, autoplay) -/
  | hydrationResolved (details : TrackDetails) (index : ℕ) (autoplay : Bool)
deriving Repr, DecidableEq

/-- Apply one event, exactly as the corresponding half of `playTrack`
mutates the session. -/
def applySessionEvent (s : SessionState) (e : SessionEvent) : SessionState :=
  match e with
  | SessionEvent.selectStart entry index =>
    { s with currentTrackId := some entry.key, activeIndex := (index : ℤ) }
  | SessionEvent.hydrationResolved details index autoplay =>
    let playlist1 :=
      if s.playlist.isEmpty then s.playlist
      else s.playlist.mapIdx (fun i t => if i = index then details.toEntry else t)
    { s with
        playlist := playlist1,
        currentTrack := some details,
        audioSrc := some details.audioUrl,
        isPlaying := autoplay }

/-- Replay a schedule of `playTrack` halves. -/
def runSession (s : SessionState) (es : List SessionEvent) : SessionState :=
  es.foldl applySessionEvent s

/-! ## Concrete fixtures used by witnesses and counterexamples -/

/-- A minimal un-hydrated playlist entry with the given catalog id. -/
def demoEntry (id : String) : PlaylistEntry :=
  { id := id, title := "track " ++ id, artists := "artist", album := "album",
    source := "netease" }

/-- A minimal hydrated track with the given catalog id and stream URL. -/
def demoDetails (id url : String) : TrackDetails :=
  { id := id, title := "track " ++ id, artists := "artist", album := "album",
    source := "netease", audioUrl := url, lyrics := [] }

/-- The schedule of claim C1: `playTrack(A)` starts, `playTrack(B)` starts
before A's hydration resolves, B's hydration resolves, then A's late
hydration resolves. -/
def staleSchedule : List SessionEvent :=
  [SessionEvent.selectStart (demoEntry "1") 0,
   SessionEvent.selectStart (demoEntry "2") 1,
   SessionEvent.hydrationResolved (demoDetails "2" "https://cdn.example/b.mp3") 1 true,
   SessionEvent.hydrationResolved (demoDetails "1" "https://cdn.example/a.mp3") 0 true]

/-- The session state before the schedule of claim C1 runs. -/
def sessionStart : SessionState :=
  { playlist := [demoEntry "1", demoEntry "2"], currentTrackId := none,
    activeIndex := -1, currentTrack := none, audioSrc := none,
    isPlaying := false }



/-! ## Claims -/

/-- C1: the spec demands that once `selectTrack(B)` has superseded
`selectTrack(A)`, A's late hydration result is never applied.  The source
has no generation token: the continuation of `playTrack` applies its
hydration result unconditionally.  Replaying the schedule select A, select
B, B resolves, A resolves leaves the loaded audio source and the
current-track record on track A while `currentTrackId` still names track
B — a stale and, moreover, partial application, contradicting the claim on
both counts. -/
theorem c1_stale_hydration_applied :
    (runSession sessionStart staleSchedule).currentTrackId = some (demoEntry "2").key ∧
    (runSession sessionStart staleSchedule).currentTrack =
      some (demoDetails "1" "https://cdn.example/a.mp3") ∧
    (runSession sessionStart staleSchedule).audioSrc = some "https://cdn.example/a.mp3" ∧
    (demoDetails "1" "https://cdn.example/a.mp3").key ≠ (demoEntry "2").key := by
  refine ⟨rfl, rfl, rfl, ?_⟩
  decide

/-- C2: the spec claims the automatic skip after an unsupported stream is
bounded by the queue length.  On a two-track queue with `repeatMode =
all`, shuffle off, every skip from either index yields the other index, so
on an all-invalid queue (where every `playTrack` fails and recurses into
`skipAfterInvalidTrack`) the skip chain alternates 0, 1, 0, 1, … and never
reaches the stop case: the `k`-th consecutive skip still returns a
candidate, for every `k`. -/
theorem c2_unbounded_skip (k : ℕ) :
    skipAfterInvalidTrack [demoEntry "1", demoEntry "2"] (k % 2) false
      RepeatMode.all 0 =
      some (if k % 2 = 0 then (demoEntry "2", 1) else (demoEntry "1", 0)) := by
  rcases Nat.mod_two_eq_zero_or_one k with h | h <;> rw [h] <;> decide

/-- C7: a quality switch that completes (fetch ok, not aborted, the
current-track ref still carries the key captured at the start, an audio
element present, `loadeddata` reached) resumes at `min t D`, where `t` is
the playback position recorded before the swap and `D` the new stream's
duration, and invokes `play()` exactly when audio was playing before the
switch. -/
theorem c7_quality_switch_resumes (current latest : TrackDetails) (env : QualityEnv)
    (hf : env.fetchOk = true) (ha1 : env.abortedAfterFetch = false)
    (hl : env.latestTrack = some latest) (hk : latest.key = current.key)
    (hau : env.audioPresent = true) (hok : env.loadOk = true)
    (ha2 : env.abortedBeforeLoaded = false)
    (ht : 0 ≤ env.previousTime) (hd : 0 < env.newDuration) :
    updateQuality current env =
      QualityOutcome.resumed (min env.previousTime env.newDuration) env.wasPlaying := by
  have hdz : env.newDuration ≠ 0 := ne_of_gt hd
  simp only [updateQuality, hf, ha1, hl, hau, hok, ha2, hk, hdz]
  simp only [if_neg (by simp : ¬(true = false)), if_neg (by simp : ¬(false = true))]
  have hmin : (0 : ℚ) ≤ min env.previousTime env.newDuration :=
    le_min ht (le_of_lt hd)
  by_cases h0 : 0 < min env.previousTime env.newDuration
  · simp [h0]
  · have : min env.previousTime env.newDuration = 0 := le_antisymm (not_lt.mp h0) hmin
    simp [h0, this]

/-- Closed witness for C7: a switch at position 30 into a stream of
duration 20, playing, resumes at `min 30 20` and plays again. -/
theorem c7_quality_switch_resumes_witness :
    updateQuality (demoDetails "1" "https://cdn.example/a.mp3")
      { fetchOk := true, abortedAfterFetch := false,
        latestTrack := some (demoDetails "1" "https://cdn.example/a.mp3"),
        audioPresent := true, wasPlaying := true, previousTime := 30,
        loadOk := true, abortedBeforeLoaded := false, newDuration := 20 } =
      QualityOutcome.resumed (min 30 20) true :=
  c7_quality_switch_resumes _ _ _ rfl rfl rfl rfl rfl rfl rfl
    (by norm_num) (by norm_num)

/-- C10: whenever the transport reports a finite positive duration that
differs from the active track's stored duration, the duration-sync effect
updates the current-track record and exactly the playlist entries carrying
the same identity key to the reported value and leaves every other entry
untouched. -/
theorem c10_duration_sync (stored : TrackDetails) (playlist : List PlaylistEntry)
    (d : ℚ) (hd : 0 < d) (hne : stored.duration ≠ some d) :
    ∃ t' pl', durationSync (some stored) playlist d = some (t', pl') ∧
      t' = { stored with duration := some d } ∧
      pl'.length = playlist.length ∧
      ∀ i e, playlist.get? i = some e →
        pl'.get? i =
          some (if e.key = stored.key then { e with duration := some d } else e) := by
  have hkey : TrackDetails.key { stored with duration := some d } = stored.key := rfl
  refine ⟨{ stored with duration := some d },
    playlist.map (fun track =>
      if track.key == stored.key then { track with duration := some d } else track),
    ?_, rfl, ?_, ?_⟩
  · simp only [durationSync, if_neg (not_le.mpr hd), if_neg hne]
    rfl
  · simp
  · intro i e he
    simp only [List.get?_eq_getElem?, List.getElem?_map] at he ⊢
    rw [he]
    by_cases hk : e.key = stored.key <;> simp [hk]

/-- Closed witness for C10: a reported duration of 100 on a track stored
without a duration updates the record and the matching playlist entry. -/
theorem c10_duration_sync_witness :
    0 < (100 : ℚ) ∧
    ∃ t' pl',
      durationSync (some (demoDetails "1" "https://cdn.example/a.mp3"))
        [demoEntry "1", demoEntry "2"] 100 = some (t', pl') := by
  obtain ⟨t', pl', h, -⟩ :=
    c10_duration_sync (demoDetails "1" "https://cdn.example/a.mp3")
      [demoEntry "1", demoEntry "2"] 100 (by norm_num) (by decide)
  exact ⟨by norm_num, t', pl', h⟩

/-- Counterexample for C3: with shuffle off, repeat mode irrelevant
(`handleNext` never reads it), a user-initiated `next()` from the last
entry of the two-track queue [1, 2] wraps to index 0 although the claim —
which demands a wrap only under `repeatMode = all`, for user skips as well
as natural ends — requires "none" here. -/
theorem c3_counterexample :
    (handleNext [demoEntry "1", demoEntry "2"] 1 false (some (demoEntry "2"))
        [] 0).target = some (demoEntry "1", 0) ∧
    (handleNext [demoEntry "1", demoEntry "2"] 1 false (some (demoEntry "2"))
        [] 0).target ≠ none := by
  refine ⟨rfl, ?_⟩
  decide

/-- Counterexample for C4: shuffle on, repeat off, queue [1, 2, 3] with
cursor 0.  The first `next()` (random draw 0, which occurs with positive
probability) selects entry 1; the second `next()` (draw 0 again) re-selects
entry 0, already visited in this run, although entry 2 has never been
visited — the code keeps no visited set, so the claim's no-repeat guarantee
fails, and no call ever returns "none" on this queue. -/
theorem c4_counterexample :
    (handleNext [demoEntry "1", demoEntry "2", demoEntry "3"] 0 true
        (some (demoEntry "1")) [] 0).target = some (demoEntry "2", 1) ∧
    (handleNext [demoEntry "1", demoEntry "2", demoEntry "3"] 1 true
        (some (demoEntry "2")) ["1-netease"] 0).target = some (demoEntry "1", 0) := by
  exact ⟨rfl, rfl⟩

/-- Counterexample for C5: inserting the currently active track itself
(queue [1], cursor at its only entry) leaves the entry at the cursor
position 0; the claim demands relocation to "just after the cursor", which
would be position 1 = (index of the cursor's key in the result) + 1, but
the returned position is 0. -/
theorem c5_counterexample :
    insertTrack [demoEntry "1"] 0 (demoEntry "1") = ([demoEntry "1"], 0) ∧
    ((insertTrack [demoEntry "1"] 0 (demoEntry "1")).2 : ℤ) ≠
      jsFindIndex (fun e => e.key == (demoEntry "1").key)
        (insertTrack [demoEntry "1"] 0 (demoEntry "1")).1 + 1 := by
  refine ⟨rfl, ?_⟩
  decide

/-- Counterexample for C8: for the single cue at 2.0 s and elapsed time
1.0 s (so 1.25 < 2.0 precedes the first cue), the computed index is 0, not
the `-1`/none the claim requires. -/
theorem c8_counterexample :
    (1 : ℚ) + 1 / 4 < 2 ∧
    computeLyricIndex [⟨2, "b", none⟩] 1 = 0 ∧
    computeLyricIndex [⟨2, "b", none⟩] 1 ≠ -1 := by
  have hp : (1 : ℚ) + 4⁻¹ < (2 : ℚ) := by norm_num
  refine ⟨by norm_num, ?_, ?_⟩ <;>
    simp [computeLyricIndex, List.findIdx, List.findIdx.go, decide_eq_true hp]

/-- On a cue list sorted ascending by time, the first index whose
timestamp exceeds the cutoff equals the number of timestamps at or below
the cutoff. -/
theorem findIdx_time_eq_countP (cutoff : ℚ) :
    ∀ l : List LyricLine, List.Pairwise (fun a b => a.time ≤ b.time) l →
      l.findIdx (fun x => decide (cutoff < x.time)) =
        l.countP (fun x => decide (x.time ≤ cutoff)) := by
  intro l h
  induction l with
  | nil => rfl
  | cons x xs ih =>
    rcases List.pairwise_cons.mp h with ⟨hx, hxs⟩
    by_cases hc : cutoff < x.time
    · have h0 : xs.countP (fun x => decide (x.time ≤ cutoff)) = 0 :=
        List.countP_eq_zero.mpr (fun a ha => by
          simp only [decide_eq_true_eq]
          exact not_le.mpr (lt_of_lt_of_le hc (hx a ha)))
      simp [List.findIdx_cons, List.countP_cons, decide_eq_true hc, h0, not_le.mpr hc]
    · have hle : x.time ≤ cutoff := not_lt.mp hc
      simp [List.findIdx_cons, List.countP_cons, hc, hle, ih hxs]

/-- On a sorted cue list, a timestamp is at or below the cutoff exactly
when its index is below the count of such timestamps. -/
theorem time_le_iff_lt_countP (cutoff : ℚ) :
    ∀ l : List LyricLine, List.Pairwise (fun a b => a.time ≤ b.time) l →
      ∀ i (h : i < l.length),
        ((l.get ⟨i, h⟩).time ≤ cutoff ↔
          i < l.countP (fun x => decide (x.time ≤ cutoff))) := by
  intro l h
  induction l with
  | nil => intro i hi; exact absurd hi (Nat.not_lt_zero i)
  | cons x xs ih =>
    rcases List.pairwise_cons.mp h with ⟨hx, hxs⟩
    intro i hi
    cases i with
    | zero =>
      have hget0 : (x :: xs).get ⟨0, hi⟩ = x := rfl
      rw [hget0, List.countP_cons]
      by_cases hxt : x.time ≤ cutoff
      · have hone : (if (decide (x.time ≤ cutoff)) = true then 1 else 0) = 1 := by
          simp [hxt]
        rw [hone]
        exact ⟨fun _ => by omega, fun _ => hxt⟩
      · have hlt' : cutoff < x.time := not_le.mp hxt
        have h0 : xs.countP (fun x => decide (x.time ≤ cutoff)) = 0 :=
          List.countP_eq_zero.mpr (fun a ha => by
            simp only [decide_eq_true_eq]
            exact not_le.mpr (lt_of_lt_of_le hlt' (hx a ha)))
        have hzero : (if (decide (x.time ≤ cutoff)) = true then 1 else 0) = 0 := by
          simp [hxt]
        rw [h0, hzero]
        exact ⟨fun hc => absurd hc hxt, fun hc => by omega⟩
    | succ j =>
      have hj : j < xs.length := Nat.lt_of_succ_lt_succ hi
      have hget : (x :: xs).get ⟨j + 1, hi⟩ = xs.get ⟨j, hj⟩ := rfl
      rw [hget, List.countP_cons, ih hxs j hj]
      by_cases hxt : x.time ≤ cutoff
      · have hone : (if (decide (x.time ≤ cutoff)) = true then 1 else 0) = 1 := by
          simp [hxt]
        rw [hone]
        omega
      · have hlt' : cutoff < x.time := not_le.mp hxt
        have h0 : xs.countP (fun x => decide (x.time ≤ cutoff)) = 0 :=
          List.countP_eq_zero.mpr (fun a ha => by
            simp only [decide_eq_true_eq]
            exact not_le.mpr (lt_of_lt_of_le hlt' (hx a ha)))
        have hzero : (if (decide (x.time ≤ cutoff)) = true then 1 else 0) = 0 := by
          simp [hxt]
        rw [h0, hzero]
        omega

/-- C8 amended: for an ascending-sorted cue list, the computed active
lyric index is the greatest index whose timestamp is ≤ elapsed + 0.25 s
when such an index exists — it equals the count of cues at or below the
cutoff minus one, and a cue's timestamp is within the cutoff exactly when
its index is below that count — but clamped from below at 0: when the
elapsed time precedes the first cue, the computed index is 0, not
`-1`/none. -/
theorem c8_active_index_amended (lyrics : List LyricLine) (t : ℚ)
    (hs : List.Pairwise (fun a b => a.time ≤ b.time) lyrics) :
    computeLyricIndex lyrics t =
      max 0 ((lyrics.countP (fun x => decide (x.time ≤ t + 1 / 4)) : ℤ) - 1) ∧
    ∀ i (h : i < lyrics.length),
      ((lyrics.get ⟨i, h⟩).time ≤ t + 1 / 4 ↔
        i < lyrics.countP (fun x => decide (x.time ≤ t + 1 / 4))) := by
  constructor
  · show max 0 (((lyrics.findIdx fun line => decide (t + 1 / 4 < line.time)) : ℤ) - 1) = _
    rw [findIdx_time_eq_countP (t + 1 / 4) lyrics hs]
  · exact time_le_iff_lt_countP (t + 1 / 4) lyrics hs

/-- Closed witness for C8's amended statement, at the spec's example cues
0.0, 2.0, 4.0 and elapsed 1.7 s. -/
theorem c8_active_index_amended_witness :
    computeLyricIndex [⟨0, "a", none⟩, ⟨2, "b", none⟩, ⟨4, "c", none⟩] (17 / 10) =
      max 0 (((List.countP (fun (x : LyricLine) => decide (x.time ≤ 17 / 10 + 1 / 4))
        [⟨0, "a", none⟩, ⟨2, "b", none⟩, ⟨4, "c", none⟩] : ℕ) : ℤ) - 1) :=
  (c8_active_index_amended _ _ (by norm_num [List.pairwise_cons])).1

/-- Linear natural end: when the repeat mode is not `one` and an entry
exists right after the cursor, `handleAutoAdvance` selects it. -/
theorem autoAdvance_linear_succ (list : List PlaylistEntry) (cur : ℤ)
    (r : RepeatMode) (ct : Option PlaylistEntry) (hist : List TrackKey)
    (pick : ℕ) (t : PlaylistEntry) (hr : r ≠ RepeatMode.one)
    (hcur : -1 ≤ cur) (hget : list.get? (cur + 1).toNat = some t) :
    (handleAutoAdvance list cur r false ct hist pick).target =
      some (t, (cur + 1).toNat) := by
  have h0 : (0 : ℤ) ≤ cur + 1 := by omega
  obtain ⟨hlenN, -⟩ := List.get?_eq_some.mp hget
  have hlt : cur + 1 < (list.length : ℤ) := by
    have := (Int.ofNat_lt).mpr hlenN
    rwa [Int.toNat_of_nonneg h0] at this
  have hempty : list.isEmpty = false :=
    List.isEmpty_eq_false.mpr (List.length_pos.mp (by omega))
  simp only [handleAutoAdvance, hempty, Bool.false_eq_true, if_false,
    if_neg hr, if_pos hlt]
  simp only [if_pos (And.intro h0 hlt), hget]

/-- Linear natural end at the last entry with `repeatMode = all`:
`handleAutoAdvance` wraps to index 0. -/
theorem autoAdvance_linear_wrap_all (list : List PlaylistEntry) (cur : ℤ)
    (ct : Option PlaylistEntry) (hist : List TrackKey) (pick : ℕ)
    (hne : list ≠ []) (hend : (list.length : ℤ) ≤ cur + 1) :
    (handleAutoAdvance list cur RepeatMode.all false ct hist pick).target =
      (list.get? 0).map (fun t => (t, 0)) := by
  have hempty : list.isEmpty = false := List.isEmpty_eq_false.mpr hne
  have hlen : 0 < list.length := List.length_pos.mpr hne
  have hr : RepeatMode.all ≠ RepeatMode.one := by decide
  have hnlt : ¬(cur + 1 < (list.length : ℤ)) := by omega
  have hin : (0 : ℤ) ≤ 0 ∧ (0 : ℤ) < (list.length : ℤ) := by
    constructor
    · omega
    · exact_mod_cast hlen
  simp only [handleAutoAdvance, hempty, Bool.false_eq_true, if_false,
    if_neg hr, if_neg hnlt, if_true, if_pos hin, Int.toNat_zero]
  rcases hg : list.get? 0 with - | t
  · rw [List.get?_eq_get hlen] at hg
    exact absurd hg (by simp)
  · rfl

/-- Linear natural end at the last entry with `repeatMode = none`:
`handleAutoAdvance` stops. -/
theorem autoAdvance_linear_end_none (list : List PlaylistEntry) (cur : ℤ)
    (ct : Option PlaylistEntry) (hist : List TrackKey) (pick : ℕ)
    (hend : (list.length : ℤ) ≤ cur + 1) :
    (handleAutoAdvance list cur RepeatMode.none false ct hist pick).target =
      none := by
  rcases hempty : list.isEmpty with - | -
  · have hr : RepeatMode.none ≠ RepeatMode.one := by decide
    have hnlt : ¬(cur + 1 < (list.length : ℤ)) := by omega
    have hrall : RepeatMode.none ≠ RepeatMode.all := by decide
    simp only [handleAutoAdvance, hempty, Bool.false_eq_true, if_false,
      if_neg hr, if_neg hnlt, if_neg hrall]
  · simp only [handleAutoAdvance, hempty, if_true]

/-- Linear user skip: with an active track and an entry right after the
cursor, `handleNext` selects it — the repeat mode plays no part. -/
theorem next_linear_succ (list : List PlaylistEntry) (cur : ℤ)
    (e : PlaylistEntry) (hist : List TrackKey) (pick : ℕ) (t : PlaylistEntry)
    (hcur : -1 ≤ cur) (hget : list.get? (cur + 1).toNat = some t) :
    (handleNext list cur false (some e) hist pick).target =
      some (t, (cur + 1).toNat) := by
  have h0 : (0 : ℤ) ≤ cur + 1 := by omega
  obtain ⟨hlenN, -⟩ := List.get?_eq_some.mp hget
  have hlt : cur + 1 < (list.length : ℤ) := by
    have := (Int.ofNat_lt).mpr hlenN
    rwa [Int.toNat_of_nonneg h0] at this
  have hempty : list.isEmpty = false :=
    List.isEmpty_eq_false.mpr (List.length_pos.mp (by omega))
  have hnn : ¬(cur + 1 < 0) := by omega
  simp only [handleNext, hempty, Bool.false_eq_true, if_false,
    Option.isNone_some, if_pos hlt, if_neg hnn, hget]

/-- Linear user skip at the last entry of a queue holding more than one
entry: `handleNext` wraps to index 0 no matter the repeat mode (which it
never reads). -/
theorem next_linear_wrap (list : List PlaylistEntry) (cur : ℤ)
    (e : PlaylistEntry) (hist : List TrackKey) (pick : ℕ)
    (hend : (list.length : ℤ) ≤ cur + 1) (hlen : 1 < list.length) :
    (handleNext list cur false (some e) hist pick).target =
      (list.get? 0).map (fun t => (t, 0)) := by
  have hempty : list.isEmpty = false :=
    List.isEmpty_eq_false.mpr (List.length_pos.mp (by omega))
  have hnlt : ¬(cur + 1 < (list.length : ℤ)) := by omega
  simp only [handleNext, hempty, Bool.false_eq_true, if_false,
    Option.isNone_some, if_neg hnlt, if_pos hlen]
  rcases hg : list.get? 0 with - | t
  · rw [List.get?_eq_get (by omega : 0 < list.length)] at hg
    exact absurd hg (by simp)
  · rfl

/-- Linear user skip at the end of a single-entry queue: `handleNext`
returns no target, again regardless of the repeat mode. -/
theorem next_linear_single_none (list : List PlaylistEntry) (cur : ℤ)
    (e : PlaylistEntry) (hist : List TrackKey) (pick : ℕ)
    (hend : (list.length : ℤ) ≤ cur + 1) (hlen : list.length = 1) :
    (handleNext list cur false (some e) hist pick).target = none := by
  have hempty : list.isEmpty = false :=
    List.isEmpty_eq_false.mpr (List.length_pos.mp (by omega))
  have hnlt : ¬(cur + 1 < (list.length : ℤ)) := by omega
  have hnlen : ¬(1 < list.length) := by omega
  simp only [handleNext, hempty, Bool.false_eq_true, if_false,
    Option.isNone_some, if_neg hnlt, if_neg hnlen]

/-- C3 amended: with shuffle off, both handlers return the entry
immediately after the cursor when one exists.  At the last entry they
diverge: a natural end-of-track (`handleAutoAdvance`, repeat ≠ one) wraps
to index 0 exactly when `repeatMode = all` and otherwise stops, whereas a
user-initiated skip (`handleNext`) ignores the repeat mode entirely and
wraps to index 0 whenever the queue holds more than one entry, stopping
only on a single-entry queue. -/
theorem c3_linear_next_amended :
    (∀ (list : List PlaylistEntry) (cur : ℤ) (r : RepeatMode)
       (ct : Option PlaylistEntry) (hist : List TrackKey) (pick : ℕ)
       (t : PlaylistEntry), r ≠ RepeatMode.one → -1 ≤ cur →
       list.get? (cur + 1).toNat = some t →
       (handleAutoAdvance list cur r false ct hist pick).target =
         some (t, (cur + 1).toNat)) ∧
    (∀ (list : List PlaylistEntry) (cur : ℤ) (ct : Option PlaylistEntry)
       (hist : List TrackKey) (pick : ℕ), list ≠ [] →
       (list.length : ℤ) ≤ cur + 1 →
       (handleAutoAdvance list cur RepeatMode.all false ct hist pick).target =
         (list.get? 0).map (fun t => (t, 0))) ∧
    (∀ (list : List PlaylistEntry) (cur : ℤ) (ct : Option PlaylistEntry)
       (hist : List TrackKey) (pick : ℕ), (list.length : ℤ) ≤ cur + 1 →
       (handleAutoAdvance list cur RepeatMode.none false ct hist pick).target =
         none) ∧
    (∀ (list : List PlaylistEntry) (cur : ℤ) (e : PlaylistEntry)
       (hist : List TrackKey) (pick : ℕ) (t : PlaylistEntry), -1 ≤ cur →
       list.get? (cur + 1).toNat = some t →
       (handleNext list cur false (some e) hist pick).target =
         some (t, (cur + 1).toNat)) ∧
    (∀ (list : List PlaylistEntry) (cur : ℤ) (e : PlaylistEntry)
       (hist : List TrackKey) (pick : ℕ), (list.length : ℤ) ≤ cur + 1 →
       1 < list.length →
       (handleNext list cur false (some e) hist pick).target =
         (list.get? 0).map (fun t => (t, 0))) ∧
    (∀ (list : List PlaylistEntry) (cur : ℤ) (e : PlaylistEntry)
       (hist : List TrackKey) (pick : ℕ), (list.length : ℤ) ≤ cur + 1 →
       list.length = 1 →
       (handleNext list cur false (some e) hist pick).target = none) :=
  ⟨fun list cur r ct hist pick t hr hcur hget =>
      autoAdvance_linear_succ list cur r ct hist pick t hr hcur hget,
    fun list cur ct hist pick hne hend =>
      autoAdvance_linear_wrap_all list cur ct hist pick hne hend,
    fun list cur ct hist pick hend =>
      autoAdvance_linear_end_none list cur ct hist pick hend,
    fun list cur e hist pick t hcur hget =>
      next_linear_succ list cur e hist pick t hcur hget,
    fun list cur e hist pick hend hlen =>
      next_linear_wrap list cur e hist pick hend hlen,
    fun list cur e hist pick hend hlen =>
      next_linear_single_none list cur e hist pick hend hlen⟩

/-- Closed witness for C3's amended statement: on [1, 2, 3] with cursor at
index 0, a user skip selects the entry at index 1. -/
theorem c3_linear_next_amended_witness :
    (handleNext [demoEntry "1", demoEntry "2", demoEntry "3"] 0 false
        (some (demoEntry "1")) [] 0).target = some (demoEntry "2", 1) := by
  have h := c3_linear_next_amended.2.2.2.1
    [demoEntry "1", demoEntry "2", demoEntry "3"] 0 (demoEntry "1") [] 0
    (demoEntry "2") (by omega) (by rfl)
  exact h

/-- The element drawn from a non-empty list by the modelled
`Math.floor(Math.random() * length)` access is a member of the list. -/
theorem drawn_mem {l : List ℕ} (pick : ℕ) (h : l.length ≠ 0) :
    (l.get? (pick % l.length)).getD 0 ∈ l := by
  have hlt : pick % l.length < l.length := Nat.mod_lt _ (Nat.pos_of_ne_zero h)
  rw [List.get?_eq_get hlt]
  simp only [Option.getD_some]
  exact List.get_mem l _ hlt

/-- On a queue of at least two entries the index set excluding the cursor
is non-empty. -/
theorem availableIndexes_length_ne_zero (n : ℕ) (cur : ℤ) (hn : 2 ≤ n) :
    ((List.range n).filter (fun (idx : ℕ) => (idx : ℤ) ≠ cur)).length ≠ 0 := by
  by_cases hc : (0 : ℤ) = cur
  · have hmem : 1 ∈ (List.range n).filter (fun (idx : ℕ) => (idx : ℤ) ≠ cur) := by
      rw [List.mem_filter]
      exact ⟨List.mem_range.mpr (by omega), by simp [← hc]⟩
    have := List.length_pos.mpr (List.ne_nil_of_mem hmem)
    omega
  · have hmem : 0 ∈ (List.range n).filter (fun (idx : ℕ) => (idx : ℤ) ≠ cur) := by
      rw [List.mem_filter]
      exact ⟨List.mem_range.mpr (by omega), by simpa using fun h => hc h⟩
    have := List.length_pos.mpr (List.ne_nil_of_mem hmem)
    omega

/-- C4 amended: with shuffle on, `handleNext` keeps no memory of the
entries visited in the current run: on a queue of at least two entries it
returns the entry at the random draw over all indices other than the
cursor — which may well be one already visited — and on any non-empty
queue with an active track it always returns some entry, never "none". -/
theorem c4_shuffle_next_amended :
    (∀ (list : List PlaylistEntry) (cur : ℤ) (e : PlaylistEntry)
       (hist : List TrackKey) (pick : ℕ), list ≠ [] →
       ((handleNext list cur true (some e) hist pick).target).isSome = true) ∧
    (∀ (list : List PlaylistEntry) (cur : ℤ) (e : PlaylistEntry)
       (hist : List TrackKey) (pick : ℕ), 2 ≤ list.length →
       ∃ t i, (handleNext list cur true (some e) hist pick).target = some (t, i) ∧
         (i : ℤ) ≠ cur ∧ i < list.length ∧ list.get? i = some t) := by
  have main : ∀ (list : List PlaylistEntry) (cur : ℤ) (e : PlaylistEntry)
      (hist : List TrackKey) (pick : ℕ), 2 ≤ list.length →
      ∃ t i, (handleNext list cur true (some e) hist pick).target = some (t, i) ∧
        (i : ℤ) ≠ cur ∧ i < list.length ∧ list.get? i = some t := by
    intro list cur e hist pick hlen
    have hempty : list.isEmpty = false :=
      List.isEmpty_eq_false.mpr (List.length_pos.mp (by omega))
    have hne1 : ¬(list.length = 1) := by omega
    have hA := availableIndexes_length_ne_zero list.length cur (by omega)
    set A := (List.range list.length).filter (fun (idx : ℕ) => (idx : ℤ) ≠ cur)
      with hAdef
    have hmem : (A.get? (pick % A.length)).getD 0 ∈ A := drawn_mem pick hA
    set j : ℕ := (A.get? (pick % A.length)).getD 0 with hjdef
    rw [List.mem_filter] at hmem
    have hjr : j < list.length := List.mem_range.mp hmem.1
    have hjc : (j : ℤ) ≠ cur := by simpa using hmem.2
    have hjget : list.get? j = some (list.get ⟨j, hjr⟩) := List.get?_eq_get hjr
    refine ⟨list.get ⟨j, hjr⟩, j, ?_, hjc, hjr, hjget⟩
    have hnn : ¬((j : ℤ) < 0) := by omega
    simp only [handleNext, hempty, Bool.false_eq_true, if_false, if_true,
      Option.isNone_some, if_neg hne1, ← hAdef, if_pos hA, ← hjdef,
      if_neg hnn, Int.toNat_natCast, hjget]
  constructor
  · intro list cur e hist pick hne
    rcases Nat.lt_or_ge list.length 2 with hl | hl
    · have hlen1 : list.length = 1 := by
        have := List.length_pos.mpr hne
        omega
      have hempty : list.isEmpty = false := List.isEmpty_eq_false.mpr hne
      rcases hg : list.get? 0 with - | t
      · rw [List.get?_eq_get (by omega : 0 < list.length)] at hg
        exact absurd hg (by simp)
      · simp only [handleNext, hempty, Bool.false_eq_true, if_false,
          Option.isNone_some, if_pos hlen1, hg]
        rfl
    · obtain ⟨t, i, hEq, -, -, -⟩ := main list cur e hist pick hl
      rw [hEq]
      rfl
  · exact main

/-- Closed witness for C4's amended statement, on the three-track queue
with cursor 0. -/
theorem c4_shuffle_next_amended_witness :
    ∃ t i, (handleNext [demoEntry "1", demoEntry "2", demoEntry "3"] 0 true
        (some (demoEntry "1")) [] 0).target = some (t, i) ∧
      (i : ℤ) ≠ 0 ∧
      i < ([demoEntry "1", demoEntry "2", demoEntry "3"] : List PlaylistEntry).length ∧
      ([demoEntry "1", demoEntry "2", demoEntry "3"] : List PlaylistEntry).get? i = some t :=
  c4_shuffle_next_amended.2 [demoEntry "1", demoEntry "2", demoEntry "3"] 0
    (demoEntry "1") [] 0 (by norm_num)

/-- The `while` pop loop of `handlePrevious` resolves to the first key
from the top of the stack that still names a queue entry, and comes back
empty exactly when no popped key does — provided no key on the stack is
the empty string (a `getTrackKey` result never is). -/
theorem popHistoryLoop_spec (list : List PlaylistEntry) :
    ∀ revHist : List TrackKey, (∀ k ∈ revHist, k ≠ "") →
      (popHistoryLoop list revHist).1 =
        (match revHist.find?
            (fun k => (list.findIdx? (fun item => item.key == k)).isSome) with
        | some k => (list.findIdx? (fun item => item.key == k)).bind
            (fun i => (list.get? i).map (fun t => (t, i)))
        | none => none) := by
  intro revHist hk
  induction revHist with
  | nil => rfl
  | cons k rest ih =>
    have hkne : ¬(k = "") := hk k (List.mem_cons_self _ _)
    by_cases hfind : (list.findIdx? (fun item => item.key == k)).isSome = true
    · obtain ⟨i, hi⟩ := Option.isSome_iff_exists.mp hfind
      rw [List.find?_cons_of_pos _ (by simpa using hfind)]
      obtain ⟨hil, -, -⟩ := List.findIdx?_eq_some_iff_getElem.mp hi
      simp only [popHistoryLoop, if_neg hkne, hi, List.get?_eq_get hil]
      simp [List.getElem?_eq_getElem hil]
    · rw [List.find?_cons_of_neg _ (by simpa using hfind)]
      have hnone : list.findIdx? (fun item => item.key == k) = none :=
        Option.not_isSome_iff_eq_none.mp (by simpa using hfind)
      simp only [popHistoryLoop, if_neg hkne, hnone]
      exact ih (fun k' h' => hk k' (List.mem_cons_of_mem _ h'))

/-- C6: with shuffle on and no empty key on the stack, `handlePrevious`
plays the entry named by the first key from the top of the shuffle history
that still resolves in the queue, skipping keys whose entries were removed
since they were pushed; when no popped key resolves, and likewise with
shuffle off, it plays the linear predecessor of the cursor, wrapping to
the last entry when the cursor is at index 0. -/
theorem c6_previous (list : List PlaylistEntry) (cur : ℤ) (e : PlaylistEntry)
    (history : List TrackKey) (hne : list ≠ [])
    (hkeys : ∀ k ∈ history, k ≠ "") :
    (∀ k i t,
      history.reverse.find?
          (fun k => (list.findIdx? (fun item => item.key == k)).isSome) = some k →
      list.findIdx? (fun item => item.key == k) = some i →
      list.get? i = some t →
      (handlePrevious list cur true (some e) history).1 = some (t, i)) ∧
    (history.reverse.find?
        (fun k => (list.findIdx? (fun item => item.key == k)).isSome) = none →
      (handlePrevious list cur true (some e) history).1 =
        (list.get? (if 0 < cur then (cur - 1).toNat else list.length - 1)).map
          (fun t => (t, if 0 < cur then (cur - 1).toNat else list.length - 1))) ∧
    ((handlePrevious list cur false (some e) history).1 =
      (list.get? (if 0 < cur then (cur - 1).toNat else list.length - 1)).map
        (fun t => (t, if 0 < cur then (cur - 1).toNat else list.length - 1))) := by
  have hempty : list.isEmpty = false := List.isEmpty_eq_false.mpr hne
  have hrev : ∀ k ∈ history.reverse, k ≠ "" := by
    intro k hk
    exact hkeys k (List.mem_reverse.mp hk)
  have hloop := popHistoryLoop_spec list history.reverse hrev
  refine ⟨?_, ?_, ?_⟩
  · intro k i t hfound hidx hget
    rw [hfound] at hloop
    simp only [hidx, hget, Option.some_bind, Option.map_some'] at hloop
    simp only [handlePrevious, hempty, Bool.false_eq_true, if_false,
      Option.isNone_some, if_true]
    rw [hloop]
  · intro hnone
    rw [hnone] at hloop
    simp only [handlePrevious, hempty, Bool.false_eq_true, if_false,
      Option.isNone_some, if_true]
    rw [hloop]
    rcases hg : list.get? (if 0 < cur then (cur - 1).toNat else list.length - 1)
      with - | t
    · rfl
    · rfl
  · simp only [handlePrevious, hempty, Bool.false_eq_true, if_false,
      Option.isNone_some, if_true]
    rcases hg : list.get? (if 0 < cur then (cur - 1).toNat else list.length - 1)
      with - | t
    · rfl
    · rfl

/-- Closed witness for C6: on [1, 2, 3] with cursor 2 and stack
["9-netease", "1-netease"], the popped top key "9-netease" no longer
resolves (that track was removed), so `previous()` plays the entry for
"1-netease" at index 0. -/
theorem c6_previous_witness :
    (handlePrevious [demoEntry "1", demoEntry "2", demoEntry "3"] 2 true
        (some (demoEntry "3")) ["9-netease", "1-netease"]).1 =
      some (demoEntry "1", 0) :=
  (c6_previous [demoEntry "1", demoEntry "2", demoEntry "3"] 2 (demoEntry "3")
      ["9-netease", "1-netease"] (by decide) (by decide)).1
    "1-netease" 0 (demoEntry "1") (by decide) (by decide) (by decide)

/-- Looking a key up after appending one pair: the earlier pairs win, the
new pair answers only when nothing before it carried the key. -/
theorem mapGet_append_single (m : List (ℤ × String)) (k k' : ℤ) (v : String) :
    mapGet (m ++ [(k', v)]) k =
      (mapGet m k).or (if k' = k then some v else none) := by
  unfold mapGet
  rw [List.find?_append]
  rcases hm : m.find? (fun p => p.1 == k) with - | p <;> rw [hm]
  · simp only [Option.none_or, Option.map_none']
    by_cases hk : k' = k
    · rw [List.find?_cons_of_pos _ (by simpa using hk), if_pos hk]
      rfl
    · rw [List.find?_cons_of_neg _ (by simpa using hk), if_neg hk]
      rfl
  · simp [Option.or_some]

/-- Folding the first-writer-wins construction over `ls` and then looking
up `k` answers from the accumulator when it already knows `k`, and
otherwise from the first line of `ls` whose rounded timestamp is `k`. -/
theorem mapGet_fold_translationStep (k : ℤ) :
    ∀ (ls : List ParsedLyricLine) (m : List (ℤ × String)),
      mapGet (ls.foldl translationStep m) k =
        (mapGet m k).or
          ((ls.find? (fun l => roundHundredths l.time == k)).map (fun l => l.text)) := by
  intro ls
  induction ls with
  | nil =>
    intro m
    rcases hm : mapGet m k with - | v <;> simp [hm]
  | cons l rest ih =>
    intro m
    rw [List.foldl_cons, ih (translationStep m l)]
    by_cases hl : roundHundredths l.time = k
    · rw [List.find?_cons_of_pos _ (by simpa using hl)]
      unfold translationStep
      rcases hm : (m.find? (fun p => p.1 == roundHundredths l.time)).isSome
        with - | -
      · simp only [hm, Bool.false_eq_true, if_false]
        rw [mapGet_append_single, if_pos hl]
        have hmk : mapGet m k = none := by
          have hnone : m.find? (fun p => p.1 == roundHundredths l.time) = none :=
            Option.not_isSome_iff_eq_none.mp (by simp [hm])
          unfold mapGet
          rw [← hl, hnone]
          rfl
        rw [hmk]
        simp
      · have hmk : ∃ v, mapGet m k = some v := by
          obtain ⟨p, hp⟩ := Option.isSome_iff_exists.mp hm
          refine ⟨p.2, ?_⟩
          unfold mapGet
          rw [← hl, hp]
          rfl
        obtain ⟨v, hv⟩ := hmk
        simp [hm, hv]
    · rw [List.find?_cons_of_neg _ (by simpa using hl)]
      have hstep : mapGet (translationStep m l) k = mapGet m k := by
        unfold translationStep
        rcases hm : (m.find? (fun p => p.1 == roundHundredths l.time)).isSome
          with - | -
        · simp only [hm, Bool.false_eq_true, if_false]
          rw [mapGet_append_single, if_neg hl]
          rcases mapGet m k with - | v <;> rfl
        · simp only [hm, if_true]
      rw [hstep]

/-- C9: `mergeLyrics` attaches to each parsed original line the text of
the first parsed translated line whose timestamp, rounded to hundredths of
a second, equals the original line's rounded timestamp; lines with no such
match get no translation, and later translated lines with the same rounded
timestamp never override the first. -/
theorem c9_merge_lyrics (original translated : Option String) :
    mergeLyrics original translated =
      (parseLrc original).map (fun line =>
        ⟨line.time, line.text,
          ((parseLrc translated).find?
              (fun l2 => roundHundredths l2.time == roundHundredths line.time)).map
            (fun l2 => l2.text)⟩) := by
  dsimp only [mergeLyrics]
  rcases ht : parseLrc translated with - | ⟨l1, rest⟩
  · simp [ht]
  · dsimp only [List.isEmpty_cons]
    simp only [Bool.false_eq_true, if_false]
    apply List.map_congr_left
    intro line _
    have hfold := mapGet_fold_translationStep (roundHundredths line.time)
      (l1 :: rest) []
    dsimp only [buildTranslationMap]
    rw [hfold]
    rfl

/-- Overwriting the entry at `i` and then splicing it out is the same as
splicing out the original entry. -/
theorem eraseIdx_set_eq {α : Type} (l : List α) (i : ℕ) (a : α) :
    (l.set i a).eraseIdx i = l.eraseIdx i := by
  induction l generalizing i with
  | nil => rfl
  | cons x xs ih =>
    cases i with
    | zero => rfl
    | succ j => simp [List.set_cons_succ, List.eraseIdx_cons_succ, ih]

/-- Splicing an element in right at the end of a prefix. -/
theorem insertIdx_append_length {α : Type} (X B : List α) (a : α) :
    (X ++ B).insertIdx X.length a = X ++ a :: B := by
  induction X with
  | nil => rfl
  | cons x X' ih => simp [List.insertIdx_succ_cons, ih]

/-- `findIndex` on a list whose prefix rejects the predicate and whose
next element satisfies it. -/
theorem findIdx?_append_first {α : Type} (P S : List α) (old : α)
    (p : α → Bool) (hP : ∀ x ∈ P, p x = false) (hold : p old = true) :
    (P ++ old :: S).findIdx? p = some P.length := by
  apply List.findIdx?_eq_some_iff_getElem.mpr
  have hlen : P.length < (P ++ old :: S).length := by
    rw [List.length_append]
    simp
  refine ⟨hlen, ?_, ?_⟩
  · rw [List.getElem_append_right (le_refl P.length)]
    simpa using hold
  · intro j hj
    rw [List.getElem_append_left hj]
    simp [hP _ (List.getElem_mem hj)]

/-- Shape of the relocation branch of `insertTrack`: with the inserted key
present at index `e` and a valid cursor, the result splices the entry out
at `e` and back in at the cursor (when `e` was at or before it) or right
after the cursor (when `e` was past it). -/
theorem insertTrack_found_eq (prev : List PlaylistEntry) (c : ℤ)
    (details : PlaylistEntry) (e : ℕ)
    (hfound : prev.findIdx? (fun item => item.key == details.key) = some e)
    (h0 : 0 ≤ c) (hc : c.toNat < prev.length) (he : e < prev.length) :
    insertTrack prev c details =
      ((prev.eraseIdx e).insertIdx
        (if e < c.toNat + 1 then c.toNat else c.toNat + 1) details,
       if e < c.toNat + 1 then c.toNat else c.toNat + 1) := by
  unfold insertTrack
  dsimp only
  rw [hfound]
  rw [if_pos h0]
  dsimp only
  rw [eraseIdx_set_eq]
  have hlenE : (prev.eraseIdx e).length = prev.length - 1 := by
    rw [List.length_eraseIdx, if_pos he]
  rw [Nat.min_eq_left (by omega : c.toNat + 1 ≤ prev.length)]
  by_cases hcase : e < c.toNat + 1
  · rw [if_pos hcase, if_pos hcase, hlenE, Nat.add_sub_cancel,
      Nat.min_eq_left (by omega : c.toNat ≤ prev.length - 1)]
  · rw [if_neg hcase, if_neg hcase, hlenE,
      Nat.min_eq_left (by omega : c.toNat + 1 ≤ prev.length - 1)]

/-- Shape of the fresh-insert branch of `insertTrack`. -/
theorem insertTrack_none_eq (prev : List PlaylistEntry) (c : ℤ)
    (details : PlaylistEntry)
    (hnone : prev.findIdx? (fun item => item.key == details.key) = none) :
    insertTrack prev c details =
      (prev.insertIdx
        (min (if 0 ≤ c then c.toNat + 1 else prev.length) prev.length) details,
       min (if 0 ≤ c then c.toNat + 1 else prev.length) prev.length) := by
  unfold insertTrack
  dsimp only
  rw [hnone]

/-- Relocation with a distinct key: inserting a track whose key is already
present (first occurrence at the end of the rejecting prefix `P`) while
the cursor rests on a different entry keeps the length and moves the
refreshed entry to immediately after the cursor entry. -/
theorem insert_relocates_after_cursor (P S : List PlaylistEntry)
    (old : PlaylistEntry) (c : ℤ) (details curEntry : PlaylistEntry)
    (hP : ∀ x ∈ P, x.key ≠ details.key) (hold : old.key = details.key)
    (h0 : 0 ≤ c) (hcur : (P ++ old :: S).get? c.toNat = some curEntry)
    (hkey : curEntry.key ≠ details.key) :
    (insertTrack (P ++ old :: S) c details).1.length = (P ++ old :: S).length ∧
    ∃ l1 l2,
      (insertTrack (P ++ old :: S) c details).1 = l1 ++ curEntry :: details :: l2 ∧
      (insertTrack (P ++ old :: S) c details).2 = l1.length + 1 := by
  have hfound : (P ++ old :: S).findIdx?
      (fun item => item.key == details.key) = some P.length :=
    findIdx?_append_first P S old _
      (fun x hx => beq_eq_false_iff_ne.mpr (hP x hx))
      (beq_iff_eq.mpr hold)
  obtain ⟨hc', hgetc⟩ := List.get?_eq_some.mp hcur
  have hgetc2 : (P ++ old :: S)[c.toNat]? = some curEntry := by
    rw [← List.get?_eq_getElem?]
    exact hcur
  have hn : (P ++ old :: S).length = P.length + S.length + 1 := by
    rw [List.length_append]
    simp [Nat.add_comm, Nat.add_assoc]
  have he : P.length < (P ++ old :: S).length := by omega
  have hneq : P.length ≠ c.toNat := by
    intro heq
    have hgo : (P ++ old :: S).get? P.length = some old := by
      rw [List.get?_eq_getElem?, List.getElem?_append_right (le_refl P.length)]
      simp
    rw [heq] at hgo
    have hoc : old = curEntry := Option.some.inj (hgo.symm.trans hcur)
    exact hkey (hoc ▸ hold)
  have herase : (P ++ old :: S).eraseIdx P.length = P ++ S := by
    rw [List.eraseIdx_append_of_length_le (le_refl P.length)]
    simp
  rw [insertTrack_found_eq (P ++ old :: S) c details P.length hfound h0 hc' he,
    herase]
  have hlenPS : (P ++ S).length = P.length + S.length := List.length_append P S
  by_cases hcase : P.length < c.toNat + 1
  · -- the matching entry sat strictly before the cursor
    have hlt : P.length < c.toNat := by omega
    have hkS : c.toNat - P.length - 1 < S.length := by omega
    have h2 : c.toNat - P.length = (c.toNat - P.length - 1) + 1 := by omega
    have hgetS : S[c.toNat - P.length - 1] = curEntry := by
      have h1 : (P ++ old :: S)[c.toNat]? = (old :: S)[c.toNat - P.length]? :=
        List.getElem?_append_right (by omega)
      rw [h2, List.getElem?_cons_succ, hgetc2] at h1
      exact (List.getElem?_eq_some_iff.mp h1.symm).2
    have hS : S = S.take (c.toNat - P.length - 1) ++
        curEntry :: S.drop (c.toNat - P.length) := by
      conv_lhs => rw [← List.take_append_drop (c.toNat - P.length - 1) S]
      rw [List.drop_eq_getElem_cons hkS, hgetS, ← h2]
    have htakelen : (S.take (c.toNat - P.length - 1)).length =
        c.toNat - P.length - 1 := by
      rw [List.length_take]
      omega
    have hXlen : (((P ++ S.take (c.toNat - P.length - 1))) ++ [curEntry]).length =
        c.toNat := by
      simp [htakelen]
      omega
    have happly := insertIdx_append_length
      ((P ++ S.take (c.toNat - P.length - 1)) ++ [curEntry])
      (S.drop (c.toNat - P.length)) details
    rw [hXlen] at happly
    have hmain : (P ++ S).insertIdx c.toNat details =
        (P ++ S.take (c.toNat - P.length - 1)) ++
          curEntry :: details :: S.drop (c.toNat - P.length) := by
      conv_lhs => rw [hS]
      rw [show P ++ (S.take (c.toNat - P.length - 1) ++
          curEntry :: S.drop (c.toNat - P.length)) =
          ((P ++ S.take (c.toNat - P.length - 1)) ++ [curEntry]) ++
            S.drop (c.toNat - P.length) by simp]
      rw [happly]
      simp
    rw [if_pos hcase, hmain]
    constructor
    · have hdroplen : (S.drop (c.toNat - P.length)).length =
          S.length - (c.toNat - P.length) := List.length_drop _ _
      simp only [List.length_append, List.length_cons, htakelen, hdroplen, hn]
      omega
    · refine ⟨P ++ S.take (c.toNat - P.length - 1),
        S.drop (c.toNat - P.length), rfl, ?_⟩
      simp only [List.length_append, htakelen]
      omega
  · -- the matching entry sat past the cursor
    have hltP : c.toNat < P.length := by omega
    have hgetP : P[c.toNat] = curEntry := by
      have h1 : (P ++ old :: S)[c.toNat]? = P[c.toNat]? := by
        rw [List.getElem?_append]
        rw [if_pos hltP]
      rw [hgetc2] at h1
      exact (List.getElem?_eq_some_iff.mp h1.symm).2
    have hPdec : P = P.take c.toNat ++ curEntry :: P.drop (c.toNat + 1) := by
      conv_lhs => rw [← List.take_append_drop c.toNat P]
      congr 1
      rw [List.drop_eq_getElem_cons hltP, hgetP]
    have htakelen : (P.take c.toNat).length = c.toNat := by
      rw [List.length_take]
      omega
    have hXlen : (P.take c.toNat ++ [curEntry]).length = c.toNat + 1 := by
      simp [htakelen]
    have happly := insertIdx_append_length
      (P.take c.toNat ++ [curEntry]) (P.drop (c.toNat + 1) ++ S) details
    rw [hXlen] at happly
    have hmain : (P ++ S).insertIdx (c.toNat + 1) details =
        P.take c.toNat ++ curEntry :: details :: (P.drop (c.toNat + 1) ++ S) := by
      conv_lhs => rw [hPdec]
      rw [show (P.take c.toNat ++ curEntry :: P.drop (c.toNat + 1)) ++ S =
          (P.take c.toNat ++ [curEntry]) ++ (P.drop (c.toNat + 1) ++ S) by simp]
      rw [happly]
      simp
    rw [if_neg hcase, hmain]
    constructor
    · have hdroplen : (P.drop (c.toNat + 1)).length = P.length - (c.toNat + 1) :=
        List.length_drop _ _
      simp only [List.length_append, List.length_cons, htakelen, hdroplen, hn]
      omega
    · exact ⟨P.take c.toNat, P.drop (c.toNat + 1) ++ S, rfl, by rw [htakelen]⟩

/-- Re-inserting the track the cursor rests on: the entry is refreshed in
place at the cursor position; it cannot move to "just after" itself. -/
theorem insert_active_track_stays (P S : List PlaylistEntry) (c : ℤ)
    (details curEntry : PlaylistEntry)
    (hP : ∀ x ∈ P, x.key ≠ details.key) (hkeyEq : curEntry.key = details.key)
    (h0 : 0 ≤ c) (hcP : c.toNat = P.length) :
    (insertTrack (P ++ curEntry :: S) c details).1 = P ++ details :: S ∧
    (insertTrack (P ++ curEntry :: S) c details).2 = P.length ∧
    (insertTrack (P ++ curEntry :: S) c details).1.length =
      (P ++ curEntry :: S).length := by
  have hfound : (P ++ curEntry :: S).findIdx?
      (fun item => item.key == details.key) = some P.length :=
    findIdx?_append_first P S curEntry _
      (fun x hx => beq_eq_false_iff_ne.mpr (hP x hx))
      (beq_iff_eq.mpr hkeyEq)
  have hn : (P ++ curEntry :: S).length = P.length + S.length + 1 := by
    rw [List.length_append]
    simp [Nat.add_comm, Nat.add_assoc]
  have he : P.length < (P ++ curEntry :: S).length := by omega
  have hc' : c.toNat < (P ++ curEntry :: S).length := by omega
  have herase : (P ++ curEntry :: S).eraseIdx P.length = P ++ S := by
    rw [List.eraseIdx_append_of_length_le (le_refl P.length)]
    simp
  rw [insertTrack_found_eq (P ++ curEntry :: S) c details P.length hfound h0
    hc' he, herase]
  have hcase : P.length < c.toNat + 1 := by omega
  rw [if_pos hcase, hcP]
  have happly := insertIdx_append_length P S details
  rw [happly]
  refine ⟨rfl, rfl, ?_⟩
  simp only [List.length_append, List.length_cons, hn]
  omega

/-- Fresh insert with an active cursor: the new entry lands immediately
after the cursor entry and the length grows by one. -/
theorem insert_new_after_cursor (prev : List PlaylistEntry) (c : ℤ)
    (details curEntry : PlaylistEntry)
    (habsent : ∀ x ∈ prev, x.key ≠ details.key)
    (h0 : 0 ≤ c) (hcur : prev.get? c.toNat = some curEntry) :
    ∃ l1 l2, prev = l1 ++ curEntry :: l2 ∧
      (insertTrack prev c details).1 = l1 ++ curEntry :: details :: l2 ∧
      (insertTrack prev c details).2 = c.toNat + 1 ∧
      (insertTrack prev c details).1.length = prev.length + 1 ∧
      l1.length = c.toNat := by
  have hnone : prev.findIdx? (fun item => item.key == details.key) = none :=
    List.findIdx?_eq_none_iff.mpr
      (fun x hx => beq_eq_false_iff_ne.mpr (habsent x hx))
  obtain ⟨hc', hgetc⟩ := List.get?_eq_some.mp hcur
  have hgetc' : prev[c.toNat] = curEntry := hgetc
  rw [insertTrack_none_eq prev c details hnone, if_pos h0,
    Nat.min_eq_left (by omega : c.toNat + 1 ≤ prev.length)]
  have hPdec : prev = prev.take c.toNat ++ curEntry :: prev.drop (c.toNat + 1) := by
    conv_lhs => rw [← List.take_append_drop c.toNat prev]
    congr 1
    rw [List.drop_eq_getElem_cons hc', hgetc']
  have htakelen : (prev.take c.toNat).length = c.toNat := by
    rw [List.length_take]
    omega
  have hXlen : (prev.take c.toNat ++ [curEntry]).length = c.toNat + 1 := by
    simp [htakelen]
  have happly := insertIdx_append_length
    (prev.take c.toNat ++ [curEntry]) (prev.drop (c.toNat + 1)) details
  rw [hXlen] at happly
  have hmain : prev.insertIdx (c.toNat + 1) details =
      prev.take c.toNat ++ curEntry :: details :: prev.drop (c.toNat + 1) := by
    conv_lhs => rw [hPdec]
    rw [show prev.take c.toNat ++ curEntry :: prev.drop (c.toNat + 1) =
        (prev.take c.toNat ++ [curEntry]) ++ prev.drop (c.toNat + 1) by simp]
    rw [happly]
    simp
  refine ⟨prev.take c.toNat, prev.drop (c.toNat + 1), hPdec, ?_, rfl, ?_, htakelen⟩
  · exact hmain
  · rw [List.length_insertIdx _ _ (by omega)]

/-- Fresh insert with no active track: the new entry is appended at the
end. -/
theorem insert_new_at_end (prev : List PlaylistEntry) (c : ℤ)
    (details : PlaylistEntry)
    (habsent : ∀ x ∈ prev, x.key ≠ details.key) (hcneg : c < 0) :
    (insertTrack prev c details).1 = prev ++ [details] ∧
    (insertTrack prev c details).2 = prev.length := by
  have hnone : prev.findIdx? (fun item => item.key == details.key) = none :=
    List.findIdx?_eq_none_iff.mpr
      (fun x hx => beq_eq_false_iff_ne.mpr (habsent x hx))
  rw [insertTrack_none_eq prev c details hnone,
    if_neg (by omega : ¬(0 : ℤ) ≤ c), Nat.min_self]
  have happly := insertIdx_append_length prev [] details
  rw [List.append_nil] at happly
  rw [happly]
  exact ⟨rfl, rfl⟩

/-- C5 amended: `insertTrack` de-duplicates by identity key.  When the
inserted key is already present and differs from the active entry's key,
the existing entry is relocated (refreshed with the hydrated details) to
immediately after the cursor entry and the length is unchanged; when the
inserted track is the active entry itself, it is refreshed in place at the
cursor position — not after itself — again with the length unchanged.  A
track not yet present is placed immediately after the cursor entry, or at
the end when no track is active; the cursor entry itself never moves
relative to the entries before it. -/
theorem c5_insert_amended :
    (∀ (P S : List PlaylistEntry) (old : PlaylistEntry) (c : ℤ)
       (details curEntry : PlaylistEntry),
       (∀ x ∈ P, x.key ≠ details.key) → old.key = details.key → 0 ≤ c →
       (P ++ old :: S).get? c.toNat = some curEntry →
       curEntry.key ≠ details.key →
       (insertTrack (P ++ old :: S) c details).1.length =
         (P ++ old :: S).length ∧
       ∃ l1 l2,
         (insertTrack (P ++ old :: S) c details).1 =
           l1 ++ curEntry :: details :: l2 ∧
         (insertTrack (P ++ old :: S) c details).2 = l1.length + 1) ∧
    (∀ (P S : List PlaylistEntry) (c : ℤ) (details curEntry : PlaylistEntry),
       (∀ x ∈ P, x.key ≠ details.key) → curEntry.key = details.key → 0 ≤ c →
       c.toNat = P.length →
       (insertTrack (P ++ curEntry :: S) c details).1 = P ++ details :: S ∧
       (insertTrack (P ++ curEntry :: S) c details).2 = P.length ∧
       (insertTrack (P ++ curEntry :: S) c details).1.length =
         (P ++ curEntry :: S).length) ∧
    (∀ (prev : List PlaylistEntry) (c : ℤ) (details curEntry : PlaylistEntry),
       (∀ x ∈ prev, x.key ≠ details.key) → 0 ≤ c →
       prev.get? c.toNat = some curEntry →
       ∃ l1 l2, prev = l1 ++ curEntry :: l2 ∧
         (insertTrack prev c details).1 = l1 ++ curEntry :: details :: l2 ∧
         (insertTrack prev c details).2 = c.toNat + 1 ∧
         (insertTrack prev c details).1.length = prev.length + 1 ∧
         l1.length = c.toNat) ∧
    (∀ (prev : List PlaylistEntry) (c : ℤ) (details : PlaylistEntry),
       (∀ x ∈ prev, x.key ≠ details.key) → c < 0 →
       (insertTrack prev c details).1 = prev ++ [details] ∧
       (insertTrack prev c details).2 = prev.length) :=
  ⟨fun P S old c details curEntry hP hold h0 hcur hkey =>
      insert_relocates_after_cursor P S old c details curEntry hP hold h0 hcur hkey,
    fun P S c details curEntry hP hkeyEq h0 hcP =>
      insert_active_track_stays P S c details curEntry hP hkeyEq h0 hcP,
    fun prev c details curEntry habsent h0 hcur =>
      insert_new_after_cursor prev c details curEntry habsent h0 hcur,
    fun prev c details habsent hcneg =>
      insert_new_at_end prev c details habsent hcneg⟩

/-- Closed witness for C5's amended statement: the spec's own example —
inserting the fresh track 4 into [1, 2, 3] with the cursor on entry 1
yields [1, 4, 2, 3] with the new entry right after the cursor. -/
theorem c5_insert_amended_witness :
    ∃ l1 l2,
      ([demoEntry "1", demoEntry "2", demoEntry "3"] : List PlaylistEntry) =
        l1 ++ demoEntry "1" :: l2 ∧
      (insertTrack [demoEntry "1", demoEntry "2", demoEntry "3"] 0
          (demoEntry "4")).1 = l1 ++ demoEntry "1" :: demoEntry "4" :: l2 ∧
      (insertTrack [demoEntry "1", demoEntry "2", demoEntry "3"] 0
          (demoEntry "4")).2 = (0 : ℤ).toNat + 1 ∧
      (insertTrack [demoEntry "1", demoEntry "2", demoEntry "3"] 0
          (demoEntry "4")).1.length =
        ([demoEntry "1", demoEntry "2", demoEntry "3"] : List PlaylistEntry).length + 1 ∧
      l1.length = (0 : ℤ).toNat :=
  c5_insert_amended.2.2.1 [demoEntry "1", demoEntry "2", demoEntry "3"] 0
    (demoEntry "4") (demoEntry "1") (by decide) (by decide) (by decide)
